import Mathlib

/-!
Shallow embedding of the csv-evaluator validation engine
(src/src/validator.ts and src/src/index.ts).

Text is modelled as Lean `String` (a list of Unicode scalar values).  The
JavaScript string operations used by the source are re-implemented on the
character list: `trim` with the ECMAScript whitespace set, `toLowerCase`
restricted to ASCII letters (every input the source's callers compare
case-insensitively is ASCII), `substring(0, 50)` as `List.take`.
JavaScript `charCodeAt` coincides with the Unicode code point for every
character of the Basic Multilingual Plane; the embedding uses `Char.toNat`.

The regular expressions of the source are transcribed, node by node, into a
small regex syntax `Rex` and executed with Brzozowski derivatives;
`RegExp.test` (search for a matching substring) is `Rex.search`, and the
anchored pattern `^...$` is `Rex.rmatch` (whole-string match).
-/

namespace CsvEval

/-- ECMAScript whitespace (the set removed by `String.prototype.trim` and
matched by the regex class `\s`): TAB..CR, SPACE, NBSP, OGHAM SPACE MARK,
U+2000..U+200A, LINE/PARAGRAPH SEPARATOR, NARROW NBSP, MATH SPACE,
IDEOGRAPHIC SPACE, BOM. -/
def jsWhitespace (c : Char) : Bool :=
  let n := c.toNat
  (9 ≤ n && n ≤ 13) || n == 32 || n == 160 || n == 5760 ||
  (8192 ≤ n && n ≤ 8202) || n == 8232 || n == 8233 || n == 8239 ||
  n == 8287 || n == 12288 || n == 65279

/-- Remove leading and trailing JavaScript whitespace from a character list. -/
def trimChars (cs : List Char) : List Char :=
  ((cs.dropWhile jsWhitespace).reverse.dropWhile jsWhitespace).reverse

/-- JavaScript `String.prototype.trim`. -/
def jsTrim (s : String) : String :=
  ⟨trimChars s.data⟩

/-- ASCII lower-casing of one character (JavaScript `toLowerCase`,
restricted to ASCII; every case-insensitive comparison in the source is
applied to ASCII text). -/
def lowChar (c : Char) : Char :=
  if 65 ≤ c.toNat && c.toNat ≤ 90 then Char.ofNat (c.toNat + 32) else c

/-- ASCII upper-casing of one character. -/
def upChar (c : Char) : Char :=
  if 97 ≤ c.toNat && c.toNat ≤ 122 then Char.ofNat (c.toNat - 32) else c

/-- JavaScript `String.prototype.toLowerCase` (ASCII fragment). -/
def jsToLower (s : String) : String :=
  ⟨s.data.map lowChar⟩

/-- JavaScript value preview used by the validators:
`value.substring(0, 50)` followed by `"..."` when the value is longer than
50 characters, the value itself otherwise. -/
def preview50 (s : String) : String :=
  if s.data.length > 50 then ⟨s.data.take 50⟩ ++ "..." else s

/-- Hexadecimal rendering of a character code as in the source:
`charCode.toString(16).toUpperCase().padStart(4, '0')` prefixed by `0x`. -/
def hexCode (n : Nat) : String :=
  let ds := (Nat.toDigits 16 n).map upChar
  "0x" ++ ⟨List.replicate (4 - ds.length) '0' ++ ds⟩

/-! ## Regular expressions (Brzozowski derivatives) -/

/-- Regex syntax: empty language, empty string, a single character
satisfying a predicate, alternation, concatenation, Kleene star. -/
inductive Rex where
  | fail : Rex
  | emptyStr : Rex
  | cls (p : Char → Bool) : Rex
  | alt (r1 r2 : Rex) : Rex
  | seq (r1 r2 : Rex) : Rex
  | star (r : Rex) : Rex

namespace Rex

/-- Does the regex accept the empty string? -/
def nullable : Rex → Bool
  | fail => false
  | emptyStr => true
  | cls _ => false
  | alt r1 r2 => nullable r1 || nullable r2
  | seq r1 r2 => nullable r1 && nullable r2
  | star _ => true

/-- Brzozowski derivative with respect to one character. -/
def deriv : Rex → Char → Rex
  | fail, _ => fail
  | emptyStr, _ => fail
  | cls p, c => if p c then emptyStr else fail
  | alt r1 r2, c => alt (deriv r1 c) (deriv r2 c)
  | seq r1 r2, c =>
    if nullable r1 then alt (seq (deriv r1 c) r2) (deriv r2 c)
    else seq (deriv r1 c) r2
  | star r, c => seq (deriv r c) (star r)

/-- Whole-string matching (the anchored pattern `^...$`). -/
def rmatch : Rex → List Char → Bool
  | r, [] => nullable r
  | r, c :: cs => rmatch (deriv r c) cs

/-- Does some prefix of the list match the regex? -/
def prefixHit : Rex → List Char → Bool
  | r, [] => nullable r
  | r, c :: cs => nullable r || prefixHit (deriv r c) cs

/-- JavaScript `RegExp.test`: does some contiguous substring match? -/
def search (r : Rex) : List Char → Bool
  | [] => prefixHit r []
  | cs@(_ :: rest) => prefixHit r cs || search r rest

end Rex

/-- A regex matching exactly the character `c`. -/
def litc (c : Char) : Rex :=
  Rex.cls (fun x => x == c)

/-- A regex matching the character `c` case-insensitively (ASCII). -/
def ilitc (c : Char) : Rex :=
  Rex.cls (fun x => x == lowChar c || x == upChar c)

/-- The literal string `s` as a regex. -/
def rstr (s : String) : Rex :=
  s.data.foldr (fun c r => Rex.seq (litc c) r) Rex.emptyStr

/-- The literal string `s`, matched case-insensitively (regex flag `i`). -/
def irstr (s : String) : Rex :=
  s.data.foldr (fun c r => Rex.seq (ilitc c) r) Rex.emptyStr

/-- The regex class `\s` (JavaScript whitespace). -/
def wsCls : Rex :=
  Rex.cls jsWhitespace

/-- The regex `\s*`. -/
def wsStar : Rex :=
  Rex.star wsCls

/-- The regex `\s+`. -/
def wsPlus : Rex :=
  Rex.seq wsCls wsStar

/-- The regex `.` (any character except line terminators, no `dotAll`). -/
def dotAny : Rex :=
  Rex.cls (fun c => !(c.toNat == 10 || c.toNat == 13 || c.toNat == 8232 || c.toNat == 8233))

/-- The regex `.*`. -/
def dotStar : Rex :=
  Rex.star dotAny

/-- The regex class `\d`. -/
def digitCls : Rex :=
  Rex.cls Char.isDigit

/-- The regex `\d*`. -/
def digitStar : Rex :=
  Rex.star digitCls

/-- The regex `\d+`. -/
def digitPlus : Rex :=
  Rex.seq digitCls digitStar

/-! ## The validator source (src/src/validator.ts) -/

/-- `SQL_DANGEROUS_PATTERNS`: the ordered Pattern Catalog, each source
regex transcribed with its description. -/
def SQL_DANGEROUS_PATTERNS : List (Rex × String) :=
  [ (litc ';', "Statement terminator"),
    (rstr "--", "SQL comment"),
    (rstr "/*", "Multi-line comment start"),
    (rstr "*/", "Multi-line comment end"),
    (rstr "';", "Quote followed by statement terminator (potential injection)"),
    (Rex.seq (rstr "';") (Rex.seq wsStar
      (Rex.alt (irstr "drop") (Rex.alt (irstr "delete") (Rex.alt (irstr "update")
        (Rex.alt (irstr "insert") (irstr "select")))))),
      "SQL injection pattern"),
    (Rex.seq (rstr "';") (Rex.seq wsStar (irstr "exec")), "SQL injection with exec"),
    (Rex.seq (rstr "';") (Rex.seq wsStar (irstr "union")), "SQL injection with union"),
    (litc (Char.ofNat 0), "Null byte"),
    (litc (Char.ofNat 26), "Ctrl+Z character"),
    (litc (Char.ofNat 8), "Backspace character"),
    (irstr "xp_", "Extended stored procedure"),
    (irstr "sp_", "System stored procedure"),
    (Rex.seq (irstr "exec") (Rex.seq wsStar (litc '(')), "EXEC( statement"),
    (Rex.seq (irstr "execute") (Rex.seq wsStar (litc '(')), "EXECUTE( statement"),
    (Rex.seq (irstr "select") (Rex.seq wsPlus (Rex.seq dotStar (Rex.seq wsPlus (irstr "from")))),
      "SELECT ... FROM statement"),
    (Rex.seq (irstr "insert") (Rex.seq wsPlus (irstr "into")), "INSERT INTO statement"),
    (Rex.seq (irstr "update") (Rex.seq wsPlus (Rex.seq dotStar (Rex.seq wsPlus (irstr "set")))),
      "UPDATE ... SET statement"),
    (Rex.seq (irstr "delete") (Rex.seq wsPlus (irstr "from")), "DELETE FROM statement"),
    (Rex.seq (irstr "drop") (Rex.seq wsPlus
      (Rex.alt (irstr "table") (Rex.alt (irstr "database") (irstr "schema")))),
      "DROP TABLE/DATABASE statement"),
    (Rex.seq (irstr "union") (Rex.seq wsPlus (irstr "select")), "UNION SELECT statement"),
    (Rex.seq (irstr "or") (Rex.seq wsPlus (Rex.seq (litc '1')
      (Rex.seq wsStar (Rex.seq (litc '=') (Rex.seq wsStar (litc '1')))))),
      "OR 1=1 injection pattern"),
    (Rex.seq (litc '\'') (Rex.seq wsStar (Rex.seq (irstr "or") (Rex.seq wsStar (litc '\'')))),
      "Quote OR quote injection pattern") ]

/-- A validation failure: column label, 1-based line, human-readable reason.
The source's `column` field is `number | string`, but every failure the
engine constructs carries a string. -/
structure ValidationFailure where
  column : String
  line : Nat
  reason : String
deriving DecidableEq, Repr

/-- Column data types (`ColumnType`). -/
inductive ColumnType where
  | string : ColumnType
  | number : ColumnType
  | boolean : ColumnType
deriving DecidableEq, Repr

/-- `ColumnConstraints`: optional type (default string) and optional
nullability (default true). -/
structure ColumnConstraints where
  type : Option ColumnType := none
  allowNull : Option Bool := none
deriving DecidableEq, Repr

/-- `HeaderConfig`.  `columnSchemas` is a JavaScript object, modelled as an
association list in key-insertion order with unique keys. -/
structure HeaderConfig where
  expectedHeaders : List String
  strictOrder : Option Bool := none
  caseInsensitive : Option Bool := none
  columnSchemas : Option (List (String × ColumnConstraints)) := none

/-- `EncodingType`. -/
inductive EncodingType where
  | UTF8 : EncodingType
  | LATIN1 : EncodingType
  | ASCII : EncodingType
  | UTF16 : EncodingType
  | WINDOWS1252 : EncodingType
deriving DecidableEq, Repr

/-- The string name of an encoding (used by `Array.prototype.join`). -/
def EncodingType.name : EncodingType → String
  | .UTF8 => "UTF8"
  | .LATIN1 => "LATIN1"
  | .ASCII => "ASCII"
  | .UTF16 => "UTF16"
  | .WINDOWS1252 => "WINDOWS1252"

/-- `EncodingConfig`. -/
structure EncodingConfig where
  allowedEncodings : Option (List EncodingType) := none

/-- `ValidationConfig`. -/
structure ValidationConfig where
  headers : HeaderConfig
  validateSqlInjection : Option Bool := none
  encoding : Option EncodingConfig := none

/-- `ValidationResult`: success or failure with total message, failures on
the failure branch only. -/
inductive ValidationResult where
  | success (message : String) : ValidationResult
  | failure (message : String) (failures : List ValidationFailure) : ValidationResult
deriving DecidableEq, Repr

/-- The header normalization of `validateHeaders`:
`caseInsensitive ? str.toLowerCase().trim() : str.trim()`. -/
def normalizeHeader (caseInsensitive : Bool) (s : String) : String :=
  if caseInsensitive then jsTrim (jsToLower s) else jsTrim s

/-- The missing-header collection of `validateHeaders`: for each expected
header whose normalized form is not contained in the normalized observed
row, the original expected name, in expected order. -/
def missingHeaders (headers : List String) (config : HeaderConfig) : List String :=
  let caseInsensitive := config.caseInsensitive.getD false
  let nh := headers.map (normalizeHeader caseInsensitive)
  (config.expectedHeaders.map
      (fun e => (normalizeHeader caseInsensitive e, e))).filterMap
    (fun p => if nh.contains p.1 then none else some p.2)

/-- First index at which two string lists differ (the positional scan of
`validateHeaders` under `strictOrder`). -/
def firstMismatch (nh ne : List String) : Option Nat :=
  (List.range nh.length).find? (fun i => nh.get? i ≠ ne.get? i)

/-- `validateHeaders` (src/src/validator.ts, lines 42-97). -/
def validateHeaders (headers : List String) (config : HeaderConfig) :
    Option ValidationFailure :=
  let strictOrder := config.strictOrder.getD true
  let caseInsensitive := config.caseInsensitive.getD false
  let nh := headers.map (normalizeHeader caseInsensitive)
  let ne := config.expectedHeaders.map (normalizeHeader caseInsensitive)
  let missing := missingHeaders headers config
  if missing ≠ [] then
    some ⟨"headers", 1, "Missing required headers: " ++ String.intercalate ", " missing⟩
  else if strictOrder then
    if nh.length ≠ ne.length then
      some ⟨"headers", 1,
        "Expected " ++ toString ne.length ++ " headers, found " ++ toString nh.length⟩
    else
      match firstMismatch nh ne with
      | none => none
      | some i =>
        let expAt := (config.expectedHeaders.get? i).getD ""
        some ⟨(if expAt = "" then "column " ++ toString (i + 1) else expAt), 1,
          "Expected header \"" ++ expAt ++ "\" at position " ++ toString (i + 1) ++
            ", found \"" ++ ((headers.get? i).getD "") ++ "\""⟩
  else
    none

/-- `BOOLEAN_VALUES`. -/
def BOOLEAN_VALUES : List String :=
  ["t", "f", "true", "false"]

/-- `NUMBER_PATTERN`: the source regex `^-?(\d+(\.\d*)?|\d*\.\d+)$`
transcribed (the anchors become whole-string matching via `Rex.rmatch`). -/
def NUMBER_PATTERN : Rex :=
  Rex.seq (Rex.alt Rex.emptyStr (litc '-'))
    (Rex.alt
      (Rex.seq digitPlus (Rex.alt Rex.emptyStr (Rex.seq (litc '.') digitStar)))
      (Rex.seq digitStar (Rex.seq (litc '.') digitPlus)))

/-- `stripSurroundingQuotes` (src/src/validator.ts, lines 109-118). -/
def stripSurroundingQuotes (value : String) : String :=
  let t := jsTrim value
  if t.data.length ≥ 2 &&
      ((t.data.head? == some '"' && t.data.getLast? == some '"') ||
        (t.data.head? == some '\'' && t.data.getLast? == some '\'')) then
    ⟨(t.data.drop 1).dropLast⟩
  else
    t

/-- Insert-or-overwrite into an association list, preserving the position
of an existing key (JavaScript object assignment). -/
def assocInsert (l : List (String × ColumnConstraints)) (k : String)
    (v : ColumnConstraints) : List (String × ColumnConstraints) :=
  match l with
  | [] => [(k, v)]
  | (k', v') :: rest =>
    if k' = k then (k', v) :: rest else (k', v') :: assocInsert rest k v

/-- `getFilteredColumnSchemas` (src/src/validator.ts, lines 124-146). -/
def getFilteredColumnSchemas (config : HeaderConfig) :
    List (String × ColumnConstraints) :=
  match config.columnSchemas with
  | none => []
  | some cs =>
    if cs.isEmpty then []
    else
      let caseInsensitive := config.caseInsensitive.getD false
      let nrm := normalizeHeader caseInsensitive
      let normalizedExpected := config.expectedHeaders.map nrm
      cs.foldl
        (fun acc kv =>
          let nk := nrm kv.1
          if normalizedExpected.contains nk then
            let canonicalKey :=
              (config.expectedHeaders.find? (fun h => nrm h = nk)).getD kv.1
            assocInsert acc canonicalKey kv.2
          else acc)
        []

/-- `validateCellForSchema` (src/src/validator.ts, lines 153-210). -/
def validateCellForSchema (rawStr : String) (constraints : ColumnConstraints)
    (columnName : String) (lineNumber : Nat) : Option ValidationFailure :=
  let ctype := constraints.type.getD .string
  let allowNull := constraints.allowNull.getD true
  let trimmed := jsTrim rawStr
  if trimmed = "" then
    if !allowNull then
      some ⟨columnName, lineNumber,
        "Column \"" ++ columnName ++ "\" does not allow null or empty values"⟩
    else none
  else
    let valueToCheck := stripSurroundingQuotes trimmed
    match ctype with
    | .string => none
    | .number =>
      if !Rex.rmatch NUMBER_PATTERN valueToCheck.data then
        some ⟨columnName, lineNumber,
          "Column \"" ++ columnName ++ "\" expects a number; got: \"" ++
            preview50 rawStr ++ "\""⟩
      else none
    | .boolean =>
      if !BOOLEAN_VALUES.contains (jsToLower valueToCheck) then
        some ⟨columnName, lineNumber,
          "Column \"" ++ columnName ++
            "\" expects a boolean (T, F, true, false); got: \"" ++
            preview50 rawStr ++ "\""⟩
      else none

/-- The per-observed-column constraint table of `validateColumnSchemas`
(`colIndexToConstraints`): for each header position, the original header
name paired with the matching canonical constraint, if any. -/
def colIndexToConstraints (headers : List String) (config : HeaderConfig) :
    List (Option (String × ColumnConstraints)) :=
  let schemas := getFilteredColumnSchemas config
  let caseInsensitive := config.caseInsensitive.getD false
  let nrm := normalizeHeader caseInsensitive
  let expectedNormalized := config.expectedHeaders.map nrm
  headers.map
    (fun h =>
      match expectedNormalized.indexOf? (nrm h) with
      | none => none
      | some expectedIndex =>
        match (config.expectedHeaders.get? expectedIndex).bind
            (fun expectedKey => (schemas.find? (fun kv => kv.1 = expectedKey)).map (·.2)) with
        | none => none
        | some constraints => some (h, constraints))

/-- The inner cell loop of `validateColumnSchemas` for one row
(`colIndex` counts from `j`, `line` is the 1-based line number). -/
def schemaCells (table : List (Option (String × ColumnConstraints)))
    (line : Nat) (j : Nat) : List String → List ValidationFailure
  | [] => []
  | cell :: rest =>
    (match table.get? j with
     | some (some entry) =>
       match validateCellForSchema cell entry.2 entry.1 line with
       | some f => [f]
       | none => []
     | _ => []) ++ schemaCells table line (j + 1) rest

/-- The row loop of `validateColumnSchemas`, starting at row index `i`. -/
def schemaRows (table : List (Option (String × ColumnConstraints)))
    (i : Nat) : List (List String) → List ValidationFailure
  | [] => []
  | row :: rest =>
    (if row.isEmpty then [] else schemaCells table (i + 1) 0 row) ++
      schemaRows table (i + 1) rest

/-- `validateColumnSchemas` (src/src/validator.ts, lines 216-267). -/
def validateColumnSchemas (data : List (List String)) (headers : List String)
    (config : HeaderConfig) : List ValidationFailure :=
  if (getFilteredColumnSchemas config).isEmpty then []
  else
    match data with
    | [] => []
    | _ :: rest => schemaRows (colIndexToConstraints headers config) 1 rest

/-- The synthesized column label `headers[colIndex] || Column N`
(the JavaScript `||` treats both a missing entry and the empty string as
falsy). -/
def columnLabel (headers : List String) (j : Nat) : String :=
  match headers.get? j with
  | some h => if h = "" then "Column " ++ toString (j + 1) else h
  | none => "Column " ++ toString (j + 1)

/-- Is a row skipped as empty by the pattern and encoding validators
(`!row || row.length === 0 || row.every(cell => cell === '' || ...)`)? -/
def isEmptyRow (row : List String) : Bool :=
  row.isEmpty || row.all (fun c => c == "")

/-- The per-cell body of `validateDataRows`: trim, skip the empty cell,
otherwise report the first catalog pattern that matches, if any. -/
def cellPatternFailure (headers : List String) (line : Nat) (j : Nat)
    (cell : String) : Option ValidationFailure :=
  let cellValue := jsTrim cell
  if cellValue = "" then none
  else
    match SQL_DANGEROUS_PATTERNS.find? (fun pd => Rex.search pd.1 cellValue.data) with
    | none => none
    | some pd =>
      some ⟨columnLabel headers j, line,
        "Contains potentially dangerous SQL pattern (" ++ pd.2 ++ "): \"" ++
          preview50 cellValue ++ "\""⟩

/-- The cell loop of `validateDataRows` for one row. -/
def patCells (headers : List String) (line : Nat) (j : Nat) :
    List String → List ValidationFailure
  | [] => []
  | cell :: rest =>
    (match cellPatternFailure headers line j cell with
     | some f => [f]
     | none => []) ++ patCells headers line (j + 1) rest

/-- The row loop of `validateDataRows`, starting at row index `i`. -/
def patRows (headers : List String) (i : Nat) :
    List (List String) → List ValidationFailure
  | [] => []
  | row :: rest =>
    (if isEmptyRow row then [] else patCells headers (i + 1) 0 row) ++
      patRows headers (i + 1) rest

/-- `validateDataRows` (src/src/validator.ts, lines 272-318). -/
def validateDataRows (data : List (List String)) (headers : List String)
    (validateSqlInjection : Bool) : List ValidationFailure :=
  if !validateSqlInjection then []
  else
    match data with
    | [] => []
    | _ :: rest => patRows headers 1 rest

/-- `ENCODING_RANGES`: inclusive character-code range of each encoding. -/
def ENCODING_RANGES (e : EncodingType) : Nat × Nat :=
  match e with
  | .ASCII => (0x00, 0x7F)
  | .LATIN1 => (0x00, 0xFF)
  | .UTF8 => (0x00, 0x7F)
  | .UTF16 => (0x00, 0x7F)
  | .WINDOWS1252 => (0x00, 0xFF)

/-- `isValidForEncoding`. -/
def isValidForEncoding (charCode : Nat) (e : EncodingType) : Bool :=
  (ENCODING_RANGES e).1 ≤ charCode && charCode ≤ (ENCODING_RANGES e).2

/-- Is a character valid for at least one allowed encoding (union
semantics)? -/
def isValidSomewhere (allowed : List EncodingType) (c : Char) : Bool :=
  allowed.any (fun e => isValidForEncoding c.toNat e)

/-- The per-cell body of `validateEncoding`: skip the (untrimmed) empty
cell, otherwise report the first character valid for no allowed encoding,
if any. -/
def cellEncodingFailure (headers : List String) (allowed : List EncodingType)
    (line : Nat) (j : Nat) (cell : String) : Option ValidationFailure :=
  if cell = "" then none
  else
    match cell.data.find? (fun c => !isValidSomewhere allowed c) with
    | none => none
    | some c =>
      some ⟨columnLabel headers j, line,
        "Contains character \"" ++ ⟨[c]⟩ ++ "\" (" ++ hexCode c.toNat ++
          ") not allowed in specified encodings: " ++
          String.intercalate ", " (allowed.map EncodingType.name)⟩

/-- The cell loop of `validateEncoding` for one row. -/
def encCells (headers : List String) (allowed : List EncodingType)
    (line : Nat) (j : Nat) : List String → List ValidationFailure
  | [] => []
  | cell :: rest =>
    (match cellEncodingFailure headers allowed line j cell with
     | some f => [f]
     | none => []) ++ encCells headers allowed line (j + 1) rest

/-- The row loop of `validateEncoding`, starting at row index `i`. -/
def encRows (headers : List String) (allowed : List EncodingType) (i : Nat) :
    List (List String) → List ValidationFailure
  | [] => []
  | row :: rest =>
    (if isEmptyRow row then [] else encCells headers allowed (i + 1) 0 row) ++
      encRows headers allowed (i + 1) rest

/-- `validateEncoding` (src/src/validator.ts, lines 344-398). -/
def validateEncoding (data : List (List String)) (headers : List String)
    (allowedEncodings : List EncodingType) : List ValidationFailure :=
  if allowedEncodings.isEmpty then []
  else
    match data with
    | [] => []
    | _ :: rest => encRows headers allowedEncodings 1 rest

/-- The number grammar exactly as the specification words it, for
comparison with the source's `NUMBER_PATTERN`: "optional leading minus,
then either (one-or-more digits optionally followed by a decimal point and
zero-or-more digits) or (a decimal point followed by one-or-more
digits)". -/
def specNumberGrammar (cs : List Char) : Prop :=
  ∃ body, (cs = body ∨ cs = '-' :: body) ∧
    ((∃ ds rest, body = ds ++ rest ∧ ds ≠ [] ∧ (∀ c ∈ ds, c.isDigit) ∧
        (rest = [] ∨ ∃ fs, rest = '.' :: fs ∧ ∀ c ∈ fs, c.isDigit)) ∨
      (∃ fs, body = '.' :: fs ∧ fs ≠ [] ∧ ∀ c ∈ fs, c.isDigit))

/-! ## The orchestrator (src/src/index.ts) -/

/-- A JavaScript thrown value as the orchestrator's `catch` sees it:
`some m` is an `Error` whose `message` is `m`, `none` a thrown non-`Error`
value. -/
abbrev JsError : Type :=
  Option String

/-- `validateFile` (src/src/index.ts, lines 37-122).  The awaited
`parseFile` call is the function's input: `Except.ok` is a parsed table,
`Except.error` a thrown parser error caught by the `catch` block. -/
def validateFile (parsed : Except JsError (List (List String)))
    (config : ValidationConfig) : ValidationResult :=
  match parsed with
  | .error e =>
    .failure ("Error processing file: " ++ (e.getD "Unknown error"))
      [⟨"file", 0, e.getD "Unknown error occurred"⟩]
  | .ok data =>
    match data with
    | [] => .failure "File is empty" [⟨"file", 0, "File contains no data"⟩]
    | headers :: _ =>
      match validateHeaders headers config.headers with
      | some headerFailure => .failure "Header validation failed" [headerFailure]
      | none =>
        let validateSql := config.validateSqlInjection.getD true
        let sqlFailures := validateDataRows data headers validateSql
        let columnSchemaFailures :=
          match config.headers.columnSchemas with
          | some cs =>
            if cs.length > 0 then validateColumnSchemas data headers config.headers
            else []
          | none => []
        let encodingFailures :=
          match config.encoding with
          | some ec =>
            match ec.allowedEncodings with
            | some aes =>
              if aes.length > 0 then validateEncoding data headers aes else []
            | none => []
          | none => []
        let allFailures := sqlFailures ++ columnSchemaFailures ++ encodingFailures
        if allFailures.length > 0 then
          .failure ("Validation failed: " ++ toString allFailures.length ++
            " issue(s) found") allFailures
        else
          .success "File validation passed successfully"

/-! ## Correctness of the derivative matcher -/

namespace Rex

theorem rmatch_nil (r : Rex) : rmatch r [] = nullable r :=
  rfl

theorem rmatch_cons (r : Rex) (c : Char) (cs : List Char) :
    rmatch r (c :: cs) = rmatch (deriv r c) cs :=
  rfl

theorem rmatch_fail (cs : List Char) : rmatch .fail cs = false := by
  induction cs with
  | nil => rfl
  | cons c cs ih => rw [rmatch_cons]; exact ih

theorem rmatch_emptyStr_iff (cs : List Char) :
    rmatch .emptyStr cs = true ↔ cs = [] := by
  cases cs with
  | nil => simp [rmatch_nil, nullable]
  | cons c cs => simp [rmatch_cons, deriv, rmatch_fail]

theorem rmatch_cls_iff (p : Char → Bool) (cs : List Char) :
    rmatch (.cls p) cs = true ↔ ∃ c, cs = [c] ∧ p c = true := by
  cases cs with
  | nil => simp [rmatch_nil, nullable]
  | cons c cs =>
    rw [rmatch_cons]
    show rmatch (if p c then .emptyStr else .fail) cs = true ↔ _
    by_cases h : p c = true
    · rw [if_pos h, rmatch_emptyStr_iff]
      constructor
      · rintro rfl
        exact ⟨c, rfl, h⟩
      · rintro ⟨c', hc', _⟩
        exact (List.cons_eq_cons.mp hc').2
    · rw [if_neg h]
      simp only [rmatch_fail, Bool.false_eq_true, false_iff]
      rintro ⟨c', hc', hp⟩
      rw [(List.cons_eq_cons.mp hc').1] at h
      exact h hp

theorem rmatch_alt (r1 r2 : Rex) (cs : List Char) :
    rmatch (.alt r1 r2) cs = (rmatch r1 cs || rmatch r2 cs) := by
  induction cs generalizing r1 r2 with
  | nil => rfl
  | cons c cs ih => simp only [rmatch_cons, deriv]; exact ih _ _

theorem rmatch_seq_iff (r1 r2 : Rex) (cs : List Char) :
    rmatch (.seq r1 r2) cs = true ↔
      ∃ t u, cs = t ++ u ∧ rmatch r1 t = true ∧ rmatch r2 u = true := by
  induction cs generalizing r1 r2 with
  | nil =>
    rw [rmatch_nil]
    show (nullable r1 && nullable r2) = true ↔ _
    rw [Bool.and_eq_true]
    constructor
    · rintro ⟨h1, h2⟩; exact ⟨[], [], rfl, h1, h2⟩
    · rintro ⟨t, u, htu, h1, h2⟩
      rcases List.append_eq_nil.mp htu.symm with ⟨rfl, rfl⟩
      exact ⟨h1, h2⟩
  | cons c cs ih =>
    rw [rmatch_cons]
    show rmatch
      (if nullable r1 then .alt (.seq (deriv r1 c) r2) (deriv r2 c)
       else .seq (deriv r1 c) r2) cs = true ↔ _
    by_cases h : nullable r1 = true
    · rw [if_pos h]
      simp only [rmatch_alt, Bool.or_eq_true, ih]
      constructor
      · rintro (⟨t, u, rfl, h1, h2⟩ | h2)
        · exact ⟨c :: t, u, rfl, by rw [rmatch_cons]; exact h1, h2⟩
        · exact ⟨[], c :: cs, rfl, h, by rw [rmatch_cons]; exact h2⟩
      · rintro ⟨t, u, htu, h1, h2⟩
        cases t with
        | nil =>
          right
          simp only [List.nil_append] at htu
          subst htu
          rw [rmatch_cons] at h2
          exact h2
        | cons t0 ts =>
          left
          rw [List.cons_append] at htu
          injection htu with hc hrest
          subst hc
          rw [rmatch_cons] at h1
          exact ⟨ts, u, hrest, h1, h2⟩
    · rw [if_neg h]
      simp only [ih]
      constructor
      · rintro ⟨t, u, rfl, h1, h2⟩
        exact ⟨c :: t, u, rfl, by rw [rmatch_cons]; exact h1, h2⟩
      · rintro ⟨t, u, htu, h1, h2⟩
        cases t with
        | nil =>
          simp only [List.nil_append] at htu
          rw [rmatch_nil] at h1
          exact absurd h1 h
        | cons t0 ts =>
          rw [List.cons_append] at htu
          injection htu with hc hrest
          subst hc
          rw [rmatch_cons] at h1
          exact ⟨ts, u, hrest, h1, h2⟩

theorem rmatch_starCls_iff (p : Char → Bool) (cs : List Char) :
    rmatch (.star (.cls p)) cs = true ↔ ∀ c ∈ cs, p c = true := by
  induction cs with
  | nil => simp [rmatch_nil, nullable]
  | cons c cs ih =>
    rw [rmatch_cons]
    show rmatch (.seq (if p c then .emptyStr else .fail) (.star (.cls p))) cs = true ↔ _
    by_cases h : p c = true
    · rw [if_pos h]
      rw [rmatch_seq_iff]
      constructor
      · rintro ⟨t, u, htu, h1, h2⟩
        rw [rmatch_emptyStr_iff] at h1
        subst h1
        simp only [List.nil_append] at htu
        subst htu
        intro x hx
        rcases List.mem_cons.mp hx with rfl | hx
        · exact h
        · exact ih.mp h2 x hx
      · intro hall
        refine ⟨[], cs, rfl, by rw [rmatch_emptyStr_iff], ih.mpr ?_⟩
        intro x hx
        exact hall x (List.mem_cons_of_mem _ hx)
    · rw [if_neg h]
      rw [rmatch_seq_iff]
      constructor
      · rintro ⟨t, u, htu, h1, h2⟩
        rw [rmatch_fail] at h1
        exact absurd h1 (by simp)
      · intro hall
        exact absurd (hall c (List.mem_cons_self c cs)) h

end Rex

theorem rmatch_litc_iff (ch : Char) (cs : List Char) :
    Rex.rmatch (litc ch) cs = true ↔ cs = [ch] := by
  simp only [litc, Rex.rmatch_cls_iff, beq_iff_eq]
  constructor
  · rintro ⟨c, rfl, rfl⟩
    rfl
  · rintro rfl
    exact ⟨ch, rfl, rfl⟩

theorem rmatch_digitStar_iff (cs : List Char) :
    Rex.rmatch digitStar cs = true ↔ ∀ c ∈ cs, c.isDigit = true := by
  simp only [digitStar, digitCls]
  exact Rex.rmatch_starCls_iff _ cs

theorem rmatch_digitPlus_iff (cs : List Char) :
    Rex.rmatch digitPlus cs = true ↔ cs ≠ [] ∧ ∀ c ∈ cs, c.isDigit = true := by
  simp only [digitPlus, digitCls, Rex.rmatch_seq_iff]
  constructor
  · rintro ⟨t, u, rfl, h1, h2⟩
    rw [Rex.rmatch_cls_iff] at h1
    obtain ⟨c, rfl, hc⟩ := h1
    rw [rmatch_digitStar_iff] at h2
    refine ⟨by simp, ?_⟩
    intro x hx
    rcases List.mem_cons.mp hx with rfl | hx
    · exact hc
    · exact h2 x hx
  · rintro ⟨hne, hall⟩
    cases cs with
    | nil => exact absurd rfl hne
    | cons c cs =>
      refine ⟨[c], cs, rfl, ?_, ?_⟩
      · rw [Rex.rmatch_cls_iff]
        exact ⟨c, rfl, hall c (List.mem_cons_self c cs)⟩
      · rw [rmatch_digitStar_iff]
        intro x hx
        exact hall x (List.mem_cons_of_mem _ hx)

theorem rmatch_optMinus_iff (t : List Char) :
    Rex.rmatch (Rex.alt Rex.emptyStr (litc '-')) t = true ↔ t = [] ∨ t = ['-'] := by
  rw [Rex.rmatch_alt, Bool.or_eq_true, Rex.rmatch_emptyStr_iff, rmatch_litc_iff]

theorem rmatch_fracTail_iff (rest : List Char) :
    Rex.rmatch (Rex.alt Rex.emptyStr (Rex.seq (litc '.') digitStar)) rest = true ↔
      rest = [] ∨ ∃ fs, rest = '.' :: fs ∧ ∀ c ∈ fs, c.isDigit = true := by
  rw [Rex.rmatch_alt, Bool.or_eq_true, Rex.rmatch_emptyStr_iff, Rex.rmatch_seq_iff]
  constructor
  · rintro (rfl | ⟨t, u, rfl, h1, h2⟩)
    · exact Or.inl rfl
    · rw [rmatch_litc_iff] at h1
      subst h1
      rw [rmatch_digitStar_iff] at h2
      exact Or.inr ⟨u, rfl, h2⟩
  · rintro (rfl | ⟨fs, rfl, hfs⟩)
    · exact Or.inl rfl
    · refine Or.inr ⟨['.'], fs, rfl, ?_, ?_⟩
      · rw [rmatch_litc_iff]
      · rw [rmatch_digitStar_iff]
        exact hfs

theorem rmatch_dotDigits_iff (rest : List Char) :
    Rex.rmatch (Rex.seq (litc '.') digitPlus) rest = true ↔
      ∃ fs, rest = '.' :: fs ∧ fs ≠ [] ∧ ∀ c ∈ fs, c.isDigit = true := by
  rw [Rex.rmatch_seq_iff]
  constructor
  · rintro ⟨t, u, rfl, h1, h2⟩
    rw [rmatch_litc_iff] at h1
    subst h1
    rw [rmatch_digitPlus_iff] at h2
    exact ⟨u, rfl, h2.1, h2.2⟩
  · rintro ⟨fs, rfl, hne, hfs⟩
    refine ⟨['.'], fs, rfl, ?_, ?_⟩
    · rw [rmatch_litc_iff]
    · rw [rmatch_digitPlus_iff]
      exact ⟨hne, hfs⟩

/-- The source's anchored regex `^-?(\d+(\.\d*)?|\d*\.\d+)$` accepts
exactly the strings of the specification's number grammar. -/
theorem rmatch_NUMBER_PATTERN_iff (cs : List Char) :
    Rex.rmatch NUMBER_PATTERN cs = true ↔ specNumberGrammar cs := by
  simp only [NUMBER_PATTERN, Rex.rmatch_seq_iff]
  constructor
  · rintro ⟨t, u, rfl, hopt, hbody⟩
    rw [rmatch_optMinus_iff] at hopt
    rw [Rex.rmatch_alt, Bool.or_eq_true] at hbody
    have hbody' :
        (∃ ds rest, u = ds ++ rest ∧ ds ≠ [] ∧ (∀ c ∈ ds, c.isDigit = true) ∧
          (rest = [] ∨ ∃ fs, rest = '.' :: fs ∧ ∀ c ∈ fs, c.isDigit = true)) ∨
        (∃ fs, u = '.' :: fs ∧ fs ≠ [] ∧ ∀ c ∈ fs, c.isDigit = true) := by
      rcases hbody with hA | hB
      · rw [Rex.rmatch_seq_iff] at hA
        obtain ⟨ds, rest, rfl, h1, h2⟩ := hA
        rw [rmatch_digitPlus_iff] at h1
        rw [rmatch_fracTail_iff] at h2
        exact Or.inl ⟨ds, rest, rfl, h1.1, h1.2, h2⟩
      · rw [Rex.rmatch_seq_iff] at hB
        obtain ⟨ds, rest, rfl, h1, h2⟩ := hB
        rw [rmatch_digitStar_iff] at h1
        rw [rmatch_dotDigits_iff] at h2
        obtain ⟨fs, rfl, hne, hfs⟩ := h2
        cases ds with
        | nil => exact Or.inr ⟨fs, rfl, hne, hfs⟩
        | cons d ds' =>
          exact Or.inl ⟨d :: ds', '.' :: fs, rfl, by simp, h1,
            Or.inr ⟨fs, rfl, hfs⟩⟩
    rcases hopt with rfl | rfl
    · exact ⟨u, Or.inl rfl, by simpa using hbody'⟩
    · exact ⟨u, Or.inr rfl, by simpa using hbody'⟩
  · rintro ⟨body, hcs, halt⟩
    have hbody :
        Rex.rmatch
          (Rex.alt
            (Rex.seq digitPlus (Rex.alt Rex.emptyStr (Rex.seq (litc '.') digitStar)))
            (Rex.seq digitStar (Rex.seq (litc '.') digitPlus))) body = true := by
      rw [Rex.rmatch_alt, Bool.or_eq_true]
      rcases halt with ⟨ds, rest, rfl, hne, hds, hrest⟩ | ⟨fs, rfl, hne, hfs⟩
      · left
        rw [Rex.rmatch_seq_iff]
        refine ⟨ds, rest, rfl, ?_, ?_⟩
        · rw [rmatch_digitPlus_iff]
          exact ⟨hne, hds⟩
        · rw [rmatch_fracTail_iff]
          exact hrest
      · right
        rw [Rex.rmatch_seq_iff]
        refine ⟨[], '.' :: fs, rfl, ?_, ?_⟩
        · rw [rmatch_digitStar_iff]
          intro x hx
          exact absurd hx (List.not_mem_nil x)
        · rw [rmatch_dotDigits_iff]
          exact ⟨fs, rfl, hne, hfs⟩
    rcases hcs with h | h
    · exact ⟨[], body, by simp [h], by rw [rmatch_optMinus_iff]; exact Or.inl rfl, hbody⟩
    · exact ⟨['-'], body, by simp [h], by rw [rmatch_optMinus_iff]; exact Or.inr rfl, hbody⟩

/-! ## Helper lemmas -/

theorem find?_first {α : Type} (p : α → Bool) :
    ∀ (l : List α) (x : α), l.find? p = some x →
      ∃ k, l.get? k = some x ∧ p x = true ∧
        ∀ k' y, k' < k → l.get? k' = some y → p y = false := by
  intro l
  induction l with
  | nil =>
    intro x h
    simp [List.find?] at h
  | cons a l ih =>
    intro x h
    cases hpa : p a with
    | true =>
      rw [List.find?_cons_of_pos _ hpa] at h
      injection h with h
      subst h
      exact ⟨0, rfl, hpa, fun k' y hk' => absurd hk' (Nat.not_lt_zero k')⟩
    | false =>
      rw [List.find?_cons_of_neg _ (by simp [hpa])] at h
      obtain ⟨k, hget, hx, hbefore⟩ := ih x h
      refine ⟨k + 1, hget, hx, ?_⟩
      intro k' y hk' hget'
      cases k' with
      | zero =>
        injection hget' with h'
        subst h'
        exact hpa
      | succ k'' =>
        exact hbefore k'' y (Nat.lt_of_succ_lt_succ hk') hget'

theorem filterMap_missing_eq_filter (nrm : String → String) (nh : List String) :
    ∀ l : List String,
      (l.map (fun e => (nrm e, e))).filterMap
          (fun p => if nh.contains p.1 then none else some p.2) =
        l.filter (fun e => !nh.contains (nrm e)) := by
  intro l
  induction l with
  | nil => rfl
  | cons e l ih =>
    rw [List.map_cons]
    cases h : nh.contains (nrm e) with
    | true =>
      rw [List.filterMap_cons_none
          (by show (if nh.contains (nrm e) = true then none else some e) = none
              rw [if_pos h]),
        List.filter_cons_of_neg (by rw [h]; simp), ih]
    | false =>
      rw [List.filterMap_cons_some
          (by show (if nh.contains (nrm e) = true then none else some e) = some e
              rw [if_neg (by rw [h]; simp)]),
        List.filter_cons_of_pos (by rw [h]; rfl), ih]

theorem missingHeaders_eq_filter (headers : List String) (config : HeaderConfig) :
    missingHeaders headers config =
      config.expectedHeaders.filter
        (fun e =>
          !(headers.map (normalizeHeader (config.caseInsensitive.getD false))).contains
            (normalizeHeader (config.caseInsensitive.getD false) e)) := by
  rw [missingHeaders]
  exact filterMap_missing_eq_filter _ _ _

theorem getFilteredColumnSchemas_unconfigured (config : HeaderConfig)
    (h : config.columnSchemas = none ∨ config.columnSchemas = some []) :
    getFilteredColumnSchemas config = [] := by
  rcases h with h | h <;> simp [getFilteredColumnSchemas, h]

theorem validateColumnSchemas_unconfigured (data : List (List String))
    (headers : List String) (config : HeaderConfig)
    (h : config.columnSchemas = none ∨ config.columnSchemas = some []) :
    validateColumnSchemas data headers config = [] := by
  rw [validateColumnSchemas.eq_def, getFilteredColumnSchemas_unconfigured config h]
  rfl

theorem validateEncoding_no_encodings (data : List (List String))
    (headers : List String) :
    validateEncoding data headers [] = [] :=
  rfl

theorem patRows_append (headers : List String) :
    ∀ (l1 l2 : List (List String)) (i : Nat),
      patRows headers i (l1 ++ l2) =
        patRows headers i l1 ++ patRows headers (i + l1.length) l2 := by
  intro l1
  induction l1 with
  | nil =>
    intro l2 i
    simp [patRows]
  | cons r l1 ih =>
    intro l2 i
    show patRows headers i (r :: (l1 ++ l2)) = _
    simp only [patRows, List.length_cons]
    rw [ih, List.append_assoc]
    rw [show i + 1 + l1.length = i + (l1.length + 1) by omega]

theorem encRows_append (headers : List String) (allowed : List EncodingType) :
    ∀ (l1 l2 : List (List String)) (i : Nat),
      encRows headers allowed i (l1 ++ l2) =
        encRows headers allowed i l1 ++ encRows headers allowed (i + l1.length) l2 := by
  intro l1
  induction l1 with
  | nil =>
    intro l2 i
    simp [encRows]
  | cons r l1 ih =>
    intro l2 i
    show encRows headers allowed i (r :: (l1 ++ l2)) = _
    simp only [encRows, List.length_cons]
    rw [ih, List.append_assoc]
    rw [show i + 1 + l1.length = i + (l1.length + 1) by omega]

theorem patCells_of_trimEmpty (headers : List String) (line : Nat) :
    ∀ (cells : List String) (j : Nat), (∀ c ∈ cells, jsTrim c = "") →
      patCells headers line j cells = [] := by
  intro cells
  induction cells with
  | nil =>
    intro j _
    rfl
  | cons cell rest ih =>
    intro j hall
    have hc : jsTrim cell = "" := hall cell (List.mem_cons_self _ _)
    have hnone : cellPatternFailure headers line j cell = none := by
      rw [cellPatternFailure]
      simp [hc]
    rw [patCells, hnone]
    show [] ++ patCells headers line (j + 1) rest = []
    rw [List.nil_append]
    exact ih (j + 1) (fun c hmem => hall c (List.mem_cons_of_mem _ hmem))

theorem encMax_ge (e : EncodingType) : 127 ≤ (ENCODING_RANGES e).2 := by
  cases e <;> decide

theorem encMin_eq (e : EncodingType) : (ENCODING_RANGES e).1 = 0 := by
  cases e <;> rfl

theorem isValidSomewhere_of_ascii (e0 : EncodingType) (es : List EncodingType)
    (c : Char) (h : c.toNat ≤ 127) : isValidSomewhere (e0 :: es) c = true := by
  rw [isValidSomewhere, List.any_cons, Bool.or_eq_true]
  left
  rw [isValidForEncoding, Bool.and_eq_true, decide_eq_true_eq, decide_eq_true_eq, encMin_eq]
  exact ⟨Nat.zero_le _, Nat.le_trans h (encMax_ge e0)⟩

theorem encCells_of_ascii (headers : List String) (e0 : EncodingType)
    (es : List EncodingType) (line : Nat) :
    ∀ (cells : List String) (j : Nat),
      (∀ c ∈ cells, ∀ ch ∈ c.data, ch.toNat ≤ 127) →
      encCells headers (e0 :: es) line j cells = [] := by
  intro cells
  induction cells with
  | nil =>
    intro j _
    rfl
  | cons cell rest ih =>
    intro j hall
    have hfind : cell.data.find? (fun c => !isValidSomewhere (e0 :: es) c) = none := by
      rw [List.find?_eq_none]
      intro ch hch
      rw [isValidSomewhere_of_ascii e0 es ch (hall cell (List.mem_cons_self _ _) ch hch)]
      simp
    have hnone : cellEncodingFailure headers (e0 :: es) line j cell = none := by
      rw [cellEncodingFailure]
      by_cases hc : cell = ""
      · rw [if_pos hc]
      · rw [if_neg hc, hfind]
    rw [encCells, hnone]
    show [] ++ encCells headers (e0 :: es) line (j + 1) rest = []
    rw [List.nil_append]
    exact ih (j + 1) (fun c hmem => hall c (List.mem_cons_of_mem _ hmem))

theorem validateCellForSchema_some (raw : String) (constraints : ColumnConstraints)
    (name : String) (line : Nat) (f : ValidationFailure)
    (h : validateCellForSchema raw constraints name line = some f) :
    f.column = name ∧ f.line = line := by
  rw [validateCellForSchema] at h
  dsimp only at h
  split at h
  · split at h
    · injection h with h
      subst h
      exact ⟨rfl, rfl⟩
    · exact absurd h (by simp)
  · split at h
    · exact absurd h (by simp)
    · split at h
      · injection h with h
        subst h
        exact ⟨rfl, rfl⟩
      · exact absurd h (by simp)
    · split at h
      · injection h with h
        subst h
        exact ⟨rfl, rfl⟩
      · exact absurd h (by simp)

theorem schemaCells_mem (table : List (Option (String × ColumnConstraints)))
    (line : Nat) :
    ∀ (cells : List String) (j : Nat) (f : ValidationFailure),
      f ∈ schemaCells table line j cells →
      ∃ d cell entry, cells.get? d = some cell ∧
        table.get? (j + d) = some (some entry) ∧
        validateCellForSchema cell entry.2 entry.1 line = some f := by
  intro cells
  induction cells with
  | nil =>
    intro j f h
    exact absurd h (List.not_mem_nil f)
  | cons cell rest ih =>
    intro j f h
    rw [schemaCells] at h
    rcases List.mem_append.mp h with h1 | h2
    · cases htj : table.get? j with
      | none =>
        rw [htj] at h1
        exact absurd h1 (List.not_mem_nil f)
      | some oentry =>
        rw [htj] at h1
        cases oentry with
        | none => exact absurd h1 (List.not_mem_nil f)
        | some entry =>
          dsimp only at h1
          cases hv : validateCellForSchema cell entry.2 entry.1 line with
          | none =>
            rw [hv] at h1
            exact absurd h1 (List.not_mem_nil f)
          | some f' =>
            rw [hv] at h1
            have hf : f = f' := List.mem_singleton.mp h1
            subst hf
            exact ⟨0, cell, entry, rfl, by rw [Nat.add_zero]; exact htj, hv⟩
    · obtain ⟨d, cell', entry, hc, ht, hv⟩ := ih (j + 1) f h2
      refine ⟨d + 1, cell', entry, hc, ?_, hv⟩
      rw [show j + (d + 1) = j + 1 + d by omega]
      exact ht

theorem schemaRows_mem (table : List (Option (String × ColumnConstraints))) :
    ∀ (rows : List (List String)) (i : Nat) (f : ValidationFailure),
      f ∈ schemaRows table i rows →
      ∃ k row, rows.get? k = some row ∧ f ∈ schemaCells table (i + k + 1) 0 row := by
  intro rows
  induction rows with
  | nil =>
    intro i f h
    exact absurd h (List.not_mem_nil f)
  | cons row rest ih =>
    intro i f h
    rw [schemaRows] at h
    rcases List.mem_append.mp h with h1 | h2
    · by_cases hr : row.isEmpty = true
      · rw [if_pos hr] at h1
        exact absurd h1 (List.not_mem_nil f)
      · rw [if_neg hr] at h1
        exact ⟨0, row, rfl, by rw [Nat.add_zero]; exact h1⟩
    · obtain ⟨k, row', hget, hmem⟩ := ih (i + 1) f h2
      refine ⟨k + 1, row', hget, ?_⟩
      rw [show i + (k + 1) + 1 = i + 1 + k + 1 by omega]
      exact hmem

theorem patCells_mem (headers : List String) (line : Nat) :
    ∀ (cells : List String) (j : Nat) (f : ValidationFailure),
      f ∈ patCells headers line j cells →
      ∃ d cell, cells.get? d = some cell ∧
        cellPatternFailure headers line (j + d) cell = some f := by
  intro cells
  induction cells with
  | nil =>
    intro j f h
    exact absurd h (List.not_mem_nil f)
  | cons cell rest ih =>
    intro j f h
    rw [patCells] at h
    rcases List.mem_append.mp h with h1 | h2
    · cases hv : cellPatternFailure headers line j cell with
      | none =>
        rw [hv] at h1
        exact absurd h1 (List.not_mem_nil f)
      | some f' =>
        rw [hv] at h1
        have hf : f = f' := List.mem_singleton.mp h1
        subst hf
        exact ⟨0, cell, rfl, by rw [Nat.add_zero]; exact hv⟩
    · obtain ⟨d, cell', hc, hv⟩ := ih (j + 1) f h2
      refine ⟨d + 1, cell', hc, ?_⟩
      rw [show j + (d + 1) = j + 1 + d by omega]
      exact hv

theorem patRows_mem (headers : List String) :
    ∀ (rows : List (List String)) (i : Nat) (f : ValidationFailure),
      f ∈ patRows headers i rows →
      ∃ k row, rows.get? k = some row ∧ isEmptyRow row = false ∧
        f ∈ patCells headers (i + k + 1) 0 row := by
  intro rows
  induction rows with
  | nil =>
    intro i f h
    exact absurd h (List.not_mem_nil f)
  | cons row rest ih =>
    intro i f h
    rw [patRows] at h
    rcases List.mem_append.mp h with h1 | h2
    · by_cases hr : isEmptyRow row = true
      · rw [if_pos hr] at h1
        exact absurd h1 (List.not_mem_nil f)
      · rw [if_neg hr] at h1
        refine ⟨0, row, rfl, ?_, by rw [Nat.add_zero]; exact h1⟩
        cases hb : isEmptyRow row with
        | false => rfl
        | true => exact absurd hb hr
    · obtain ⟨k, row', hget, hrow, hmem⟩ := ih (i + 1) f h2
      refine ⟨k + 1, row', hget, hrow, ?_⟩
      rw [show i + (k + 1) + 1 = i + 1 + k + 1 by omega]
      exact hmem

theorem encCells_mem (headers : List String) (allowed : List EncodingType) (line : Nat) :
    ∀ (cells : List String) (j : Nat) (f : ValidationFailure),
      f ∈ encCells headers allowed line j cells →
      ∃ d cell, cells.get? d = some cell ∧
        cellEncodingFailure headers allowed line (j + d) cell = some f := by
  intro cells
  induction cells with
  | nil =>
    intro j f h
    exact absurd h (List.not_mem_nil f)
  | cons cell rest ih =>
    intro j f h
    rw [encCells] at h
    rcases List.mem_append.mp h with h1 | h2
    · cases hv : cellEncodingFailure headers allowed line j cell with
      | none =>
        rw [hv] at h1
        exact absurd h1 (List.not_mem_nil f)
      | some f' =>
        rw [hv] at h1
        have hf : f = f' := List.mem_singleton.mp h1
        subst hf
        exact ⟨0, cell, rfl, by rw [Nat.add_zero]; exact hv⟩
    · obtain ⟨d, cell', hc, hv⟩ := ih (j + 1) f h2
      refine ⟨d + 1, cell', hc, ?_⟩
      rw [show j + (d + 1) = j + 1 + d by omega]
      exact hv

theorem encRows_mem (headers : List String) (allowed : List EncodingType) :
    ∀ (rows : List (List String)) (i : Nat) (f : ValidationFailure),
      f ∈ encRows headers allowed i rows →
      ∃ k row, rows.get? k = some row ∧ isEmptyRow row = false ∧
        f ∈ encCells headers allowed (i + k + 1) 0 row := by
  intro rows
  induction rows with
  | nil =>
    intro i f h
    exact absurd h (List.not_mem_nil f)
  | cons row rest ih =>
    intro i f h
    rw [encRows] at h
    rcases List.mem_append.mp h with h1 | h2
    · by_cases hr : isEmptyRow row = true
      · rw [if_pos hr] at h1
        exact absurd h1 (List.not_mem_nil f)
      · rw [if_neg hr] at h1
        refine ⟨0, row, rfl, ?_, by rw [Nat.add_zero]; exact h1⟩
        cases hb : isEmptyRow row with
        | false => rfl
        | true => exact absurd hb hr
    · obtain ⟨k, row', hget, hrow, hmem⟩ := ih (i + 1) f h2
      refine ⟨k + 1, row', hget, hrow, ?_⟩
      rw [show i + (k + 1) + 1 = i + 1 + k + 1 by omega]
      exact hmem

/-! ## Claims -/

/-- C1: for every parsed table with at least one row whose header row
passes header validation, `validateFile` concatenates the validators'
failure sequences in the fixed order pattern, then schema, then encoding
failures (the configuration gates collapse to the validators' own
empty-result cases); a non-empty concatenation yields a failure outcome
with message "Validation failed: <count> issue(s) found" carrying the full
sequence, an empty one the success outcome with message "File validation
passed successfully". -/
theorem C1_orchestrator_concatenation :
    ∀ (hd : List String) (rest : List (List String)) (config : ValidationConfig),
      validateHeaders hd config.headers = none →
      validateFile (.ok (hd :: rest)) config =
        (let allFailures :=
          validateDataRows (hd :: rest) hd (config.validateSqlInjection.getD true) ++
            validateColumnSchemas (hd :: rest) hd config.headers ++
            validateEncoding (hd :: rest) hd
              ((config.encoding.map (fun ec => ec.allowedEncodings.getD [])).getD []);
         if allFailures = [] then .success "File validation passed successfully"
         else .failure ("Validation failed: " ++ toString allFailures.length ++
           " issue(s) found") allFailures) := by
  intro hd rest config h
  obtain ⟨hcfg, vsql, enc⟩ := config
  dsimp only at h
  rw [validateFile.eq_def]
  dsimp only
  rw [h]
  dsimp only
  have hschema :
      (match hcfg.columnSchemas with
        | some cs =>
          if cs.length > 0 then validateColumnSchemas (hd :: rest) hd hcfg else []
        | none => []) = validateColumnSchemas (hd :: rest) hd hcfg := by
    cases hcs : hcfg.columnSchemas with
    | none => rw [validateColumnSchemas_unconfigured _ _ _ (Or.inl hcs)]
    | some cs =>
      cases cs with
      | nil =>
        rw [validateColumnSchemas_unconfigured _ _ _ (Or.inr hcs)]
        rfl
      | cons c cs' => simp
  have henc :
      (match enc with
        | some ec =>
          match ec.allowedEncodings with
          | some aes => if aes.length > 0 then validateEncoding (hd :: rest) hd aes else []
          | none => []
        | none => []) =
        validateEncoding (hd :: rest) hd
          ((enc.map (fun ec => ec.allowedEncodings.getD [])).getD []) := by
    cases enc with
    | none => rfl
    | some ec =>
      obtain ⟨aes⟩ := ec
      cases aes with
      | none => rfl
      | some l =>
        cases l with
        | nil => rfl
        | cons e0 es => simp
  rw [hschema, henc]
  generalize (validateDataRows (hd :: rest) hd (vsql.getD true) ++
      validateColumnSchemas (hd :: rest) hd hcfg ++
      validateEncoding (hd :: rest) hd
        ((enc.map (fun ec => ec.allowedEncodings.getD [])).getD [])) = fs
  cases fs with
  | nil => rfl
  | cons f fs' => simp

/-- C1 witness: the end-to-end example of the specification, a clean
header and a data row containing a SQL pattern, evaluated by applying the
orchestrator theorem. -/
theorem C1_witness :
    validateFile (.ok [["Name", "Email"], ["Alice; DROP TABLE users", "a@b.com"]])
      ⟨⟨["Name", "Email"], none, none, none⟩, none, none⟩ =
      .failure "Validation failed: 1 issue(s) found"
        [⟨"Name", 2,
          "Contains potentially dangerous SQL pattern (Statement terminator): \"Alice; DROP TABLE users\""⟩] := by
  rw [C1_orchestrator_concatenation _ _ _ (by decide)]
  decide

/-- C2: when the Header Validator fails, the orchestrator returns a
failure outcome with message "Header validation failed" whose failure
sequence is exactly that one failure; no other validator contributes. -/
theorem C2_header_gate :
    ∀ (hd : List String) (rest : List (List String)) (config : ValidationConfig)
      (f : ValidationFailure),
      validateHeaders hd config.headers = some f →
      validateFile (.ok (hd :: rest)) config = .failure "Header validation failed" [f] := by
  intro hd rest config f h
  rw [validateFile.eq_def]
  dsimp only
  rw [h]

/-- C2 witness: a header row missing an expected header short-circuits the
orchestrator. -/
theorem C2_witness :
    validateFile (.ok [["Other"], ["x"]]) ⟨⟨["Name"], none, none, none⟩, none, none⟩ =
      .failure "Header validation failed"
        [⟨"headers", 1, "Missing required headers: Name"⟩] :=
  C2_header_gate ["Other"] [["x"]] ⟨⟨["Name"], none, none, none⟩, none, none⟩
    ⟨"headers", 1, "Missing required headers: Name"⟩ (by decide)

/-- C3: the entry point never raises: a thrown parser error is converted
into a failure outcome carrying exactly one file-level failure
(column "file", line 0) whose reason is the error's message, or
"Unknown error occurred" when the thrown value carries no message.
(In the embedding `validateFile` is a total function, so every input
yields an outcome value.) -/
theorem C3_parser_error_conversion :
    ∀ (e : JsError) (config : ValidationConfig),
      validateFile (.error e) config =
        .failure ("Error processing file: " ++
            (match e with | some m => m | none => "Unknown error"))
          [⟨"file", 0, match e with | some m => m | none => "Unknown error occurred"⟩] := by
  intro e config
  cases e <;> rfl

/-- C4 counterexample: the claim asserts that a cell absent because its
row is shorter than the header row is treated as empty and yields an
allow-null failure; on the code the inner loop runs only over the cells
present in the row, so the configured non-nullable column "age" produces
no failure at all for the short row. -/
theorem C4_counterexample :
    validateColumnSchemas [["name", "age"], ["alice"]] ["name", "age"]
        ⟨["name", "age"], none, none, some [("age", ⟨none, some false⟩)]⟩ = [] ∧
    (⟨"age", 2, "Column \"age\" does not allow null or empty values"⟩ : ValidationFailure) ∉
      validateColumnSchemas [["name", "age"], ["alice"]] ["name", "age"]
        ⟨["name", "age"], none, none, some [("age", ⟨none, some false⟩)]⟩ := by
  exact ⟨by decide, by decide⟩

/-- C4 amended: every failure of the Column Schema Validator originates
from a cell that is present in its row; a cell absent because its row is
shorter than the header row is never examined and yields no failure, even
for a constrained column with allowNull = false. -/
theorem C4_amended_present_cells_only :
    ∀ (data : List (List String)) (headers : List String) (config : HeaderConfig)
      (f : ValidationFailure), f ∈ validateColumnSchemas data headers config →
      ∃ i row j cell entry,
        data.get? i = some row ∧ 1 ≤ i ∧ row.get? j = some cell ∧
        (colIndexToConstraints headers config).get? j = some (some entry) ∧
        validateCellForSchema cell entry.2 entry.1 (i + 1) = some f ∧
        f.column = entry.1 ∧ f.line = i + 1 := by
  intro data headers config f h
  rw [validateColumnSchemas.eq_def] at h
  split at h
  · exact absurd h (List.not_mem_nil f)
  · cases data with
    | nil => exact absurd h (List.not_mem_nil f)
    | cons hd rest =>
      dsimp only at h
      obtain ⟨k, row, hget, hmem⟩ := schemaRows_mem _ rest 1 f h
      obtain ⟨d, cell, entry, hc, ht, hv⟩ := schemaCells_mem _ (1 + k + 1) row 0 f hmem
      have hcl := validateCellForSchema_some _ _ _ _ _ hv
      refine ⟨k + 1, row, d, cell, entry, ?_, ?_, hc, ?_, ?_, hcl.1, ?_⟩
      · rw [List.get?_cons_succ]
        exact hget
      · omega
      · rw [show (0 : Nat) + d = d from by omega] at ht
        exact ht
      · rw [show k + 1 + 1 = 1 + k + 1 by omega]
        exact hv
      · rw [hcl.2]
        omega

/-- C4 amended witness: a present empty cell in a non-nullable column does
produce a failure, and the amended theorem locates it. -/
theorem C4_amended_witness :
    (⟨"name", 2, "Column \"name\" does not allow null or empty values"⟩ : ValidationFailure) ∈
        validateColumnSchemas [["name"], [""]] ["name"]
          ⟨["name"], none, none, some [("name", ⟨none, some false⟩)]⟩ ∧
    (∃ i row j cell entry,
      ([["name"], [""]] : List (List String)).get? i = some row ∧ 1 ≤ i ∧
      row.get? j = some cell ∧
      (colIndexToConstraints ["name"]
          ⟨["name"], none, none, some [("name", ⟨none, some false⟩)]⟩).get? j =
        some (some entry) ∧
      validateCellForSchema cell entry.2 entry.1 (i + 1) =
        some ⟨"name", 2, "Column \"name\" does not allow null or empty values"⟩ ∧
      (⟨"name", 2, "Column \"name\" does not allow null or empty values"⟩ :
        ValidationFailure).column = entry.1 ∧
      (⟨"name", 2, "Column \"name\" does not allow null or empty values"⟩ :
        ValidationFailure).line = i + 1) :=
  ⟨by decide,
    C4_amended_present_cells_only [["name"], [""]] ["name"]
      ⟨["name"], none, none, some [("name", ⟨none, some false⟩)]⟩
      ⟨"name", 2, "Column \"name\" does not allow null or empty values"⟩ (by decide)⟩

/-- C5 counterexample: the claim asserts that a cell that is empty after
trimming yields no failure from either validator regardless of policy; a
cell holding one NO-BREAK SPACE (U+00A0, removed by JavaScript trim) is
empty after trimming and yields no pattern failure, yet the Encoding
Validator — which skips only cells that are exactly empty, without
trimming — scans it and flags it under allowedEncodings = [UTF8]. -/
theorem C5_counterexample :
    jsTrim ⟨[Char.ofNat 160]⟩ = "" ∧
    validateDataRows [["h"], [⟨[Char.ofNat 160]⟩]] ["h"] true = [] ∧
    validateEncoding [["h"], [⟨[Char.ofNat 160]⟩]] ["h"] [.UTF8] =
      [⟨"h", 2, "Contains character \"" ++ (⟨[Char.ofNat 160]⟩ : String) ++
        "\" (0x00A0) not allowed in specified encodings: UTF8"⟩] := by
  exact ⟨by decide, by decide, by decide⟩

/-- C5 amended: the Content Pattern Validator skips rows that are entirely
empty and cells that are empty after trimming, at any position: a
trim-empty cell yields no per-cell pattern failure, the Encoding Validator
skips exactly-empty cells (without trimming) and never flags a cell each
of whose characters lies within some allowed encoding's range, both
validators contribute nothing for an entirely empty row wherever it
appears, and conversely every emitted pattern failure stems from a
non-empty row and a trim-non-empty cell, every emitted encoding failure
from a non-empty row and a non-empty cell holding a character outside
every allowed range. -/
theorem C5_amended_empty_skipping :
    (∀ (headers : List String) (line j : Nat) (cell : String),
      jsTrim cell = "" → cellPatternFailure headers line j cell = none) ∧
    (∀ (headers : List String) (allowed : List EncodingType) (line j : Nat),
      cellEncodingFailure headers allowed line j "" = none) ∧
    (∀ (headers : List String) (allowed : List EncodingType) (line j : Nat)
      (cell : String), (∀ ch ∈ cell.data, isValidSomewhere allowed ch = true) →
      cellEncodingFailure headers allowed line j cell = none) ∧
    (∀ (headers : List String) (allowed : List EncodingType) (i : Nat)
      (row : List String) (rest : List (List String)), isEmptyRow row = true →
      patRows headers i (row :: rest) = patRows headers (i + 1) rest ∧
      encRows headers allowed i (row :: rest) = encRows headers allowed (i + 1) rest) ∧
    (∀ (data : List (List String)) (headers : List String) (flag : Bool)
      (f : ValidationFailure), f ∈ validateDataRows data headers flag →
      ∃ i row j cell, data.get? i = some row ∧ 1 ≤ i ∧ isEmptyRow row = false ∧
        row.get? j = some cell ∧ jsTrim cell ≠ "" ∧
        cellPatternFailure headers (i + 1) j cell = some f) ∧
    (∀ (data : List (List String)) (headers : List String)
      (allowed : List EncodingType) (f : ValidationFailure),
      f ∈ validateEncoding data headers allowed →
      ∃ i row j cell, data.get? i = some row ∧ 1 ≤ i ∧ isEmptyRow row = false ∧
        row.get? j = some cell ∧ cell ≠ "" ∧
        (∃ ch ∈ cell.data, isValidSomewhere allowed ch = false) ∧
        cellEncodingFailure headers allowed (i + 1) j cell = some f) := by
  refine ⟨?_, ?_, ?_, ?_, ?_, ?_⟩
  · intro headers line j cell h
    rw [cellPatternFailure]
    simp [h]
  · intro headers allowed line j
    rw [cellEncodingFailure, if_pos rfl]
  · intro headers allowed line j cell h
    rw [cellEncodingFailure]
    by_cases hc : cell = ""
    · rw [if_pos hc]
    · rw [if_neg hc]
      have hfind : cell.data.find? (fun c => !isValidSomewhere allowed c) = none := by
        rw [List.find?_eq_none]
        intro ch hch
        rw [h ch hch]
        simp
      rw [hfind]
  · intro headers allowed i row rest h
    constructor
    · rw [patRows, if_pos h, List.nil_append]
    · rw [encRows, if_pos h, List.nil_append]
  · intro data headers flag f hmem
    rw [validateDataRows.eq_def] at hmem
    split at hmem
    · exact absurd hmem (List.not_mem_nil f)
    · cases data with
      | nil => exact absurd hmem (List.not_mem_nil f)
      | cons hd rest =>
        dsimp only at hmem
        obtain ⟨k, row, hget, hrow, hcells⟩ := patRows_mem headers rest 1 f hmem
        obtain ⟨d, cell, hc, hv⟩ := patCells_mem headers (1 + k + 1) row 0 f hcells
        rw [show (0 : Nat) + d = d from by omega] at hv
        have htrim : jsTrim cell ≠ "" := by
          intro htr
          rw [cellPatternFailure] at hv
          simp [htr] at hv
        refine ⟨k + 1, row, d, cell, ?_, ?_, hrow, hc, htrim, ?_⟩
        · rw [List.get?_cons_succ]
          exact hget
        · omega
        · rw [show k + 1 + 1 = 1 + k + 1 by omega]
          exact hv
  · intro data headers allowed f hmem
    rw [validateEncoding.eq_def] at hmem
    split at hmem
    · exact absurd hmem (List.not_mem_nil f)
    · cases data with
      | nil => exact absurd hmem (List.not_mem_nil f)
      | cons hd rest =>
        dsimp only at hmem
        obtain ⟨k, row, hget, hrow, hcells⟩ := encRows_mem headers allowed rest 1 f hmem
        obtain ⟨d, cell, hc, hv⟩ := encCells_mem headers allowed (1 + k + 1) row 0 f hcells
        rw [show (0 : Nat) + d = d from by omega] at hv
        have hcell : cell ≠ "" := by
          intro hce
          rw [cellEncodingFailure, if_pos hce] at hv
          exact absurd hv (by simp)
        have hbad : ∃ ch ∈ cell.data, isValidSomewhere allowed ch = false := by
          rw [cellEncodingFailure, if_neg hcell] at hv
          cases hfind : cell.data.find? (fun c => !isValidSomewhere allowed c) with
          | none =>
            rw [hfind] at hv
            exact absurd hv (by simp)
          | some c =>
            refine ⟨c, List.mem_of_find?_eq_some hfind, ?_⟩
            have hpc := List.find?_some hfind
            simp only [Bool.not_eq_true'] at hpc
            exact hpc
        refine ⟨k + 1, row, d, cell, ?_, ?_, hrow, hc, hcell, hbad, ?_⟩
        · rw [List.get?_cons_succ]
          exact hget
        · omega
        · rw [show k + 1 + 1 = 1 + k + 1 by omega]
          exact hv

/-- C5 amended witness: a trim-empty ASCII-space cell yields no per-cell
pattern failure, a NO-BREAK SPACE cell is not flagged under LATIN1 (its
character is in range), an empty row in the middle of the row list is
skipped by both validators, and the provenance clause locates the one
pattern failure of a concrete table in its non-empty cell. -/
theorem C5_amended_witness :
    cellPatternFailure ["h"] 5 1 " " = none ∧
    cellEncodingFailure ["h"] [.LATIN1] 5 1 (⟨[Char.ofNat 160]⟩ : String) = none ∧
    (patRows ["h"] 3 [[""], ["x;y"]] = patRows ["h"] 4 [["x;y"]] ∧
      encRows ["h"] [.UTF8] 3 [[""], ["x;y"]] = encRows ["h"] [.UTF8] 4 [["x;y"]]) ∧
    (∃ i row j cell,
      ([["h"], ["x;y"]] : List (List String)).get? i = some row ∧ 1 ≤ i ∧
      isEmptyRow row = false ∧ row.get? j = some cell ∧ jsTrim cell ≠ "" ∧
      cellPatternFailure ["h"] (i + 1) j cell =
        some ⟨"h", 2,
          "Contains potentially dangerous SQL pattern (Statement terminator): \"x;y\""⟩) :=
  ⟨C5_amended_empty_skipping.1 ["h"] 5 1 " " (by decide),
    C5_amended_empty_skipping.2.2.1 ["h"] [.LATIN1] 5 1 (⟨[Char.ofNat 160]⟩ : String)
      (by decide),
    C5_amended_empty_skipping.2.2.2.1 ["h"] [.UTF8] 3 [""] [["x;y"]] (by decide),
    C5_amended_empty_skipping.2.2.2.2.1 [["h"], ["x;y"]] ["h"] true
      ⟨"h", 2, "Contains potentially dangerous SQL pattern (Statement terminator): \"x;y\""⟩
      (by decide)⟩

/-- C6: the Content Pattern Validator emits at most one failure per cell
(the per-cell computation returns an `Option`); whenever it emits one, its
description is that of the earliest entry of the ordered Pattern Catalog
that matches the trimmed cell text, every earlier entry failing to match;
concretely the cell "; DROP TABLE users" is flagged with the
"Statement terminator" description at its row's 1-based line number. -/
theorem C6_pattern_catalog_first_match :
    (∀ (headers : List String) (line j : Nat) (cell : String) (f : ValidationFailure),
      cellPatternFailure headers line j cell = some f →
      ∃ k rex desc, SQL_DANGEROUS_PATTERNS.get? k = some (rex, desc) ∧
        Rex.search rex (jsTrim cell).data = true ∧
        (∀ k' rex' desc', k' < k → SQL_DANGEROUS_PATTERNS.get? k' = some (rex', desc') →
          Rex.search rex' (jsTrim cell).data = false) ∧
        f = ⟨columnLabel headers j, line,
          "Contains potentially dangerous SQL pattern (" ++ desc ++ "): \"" ++
            preview50 (jsTrim cell) ++ "\""⟩) ∧
    validateDataRows [["h"], ["; DROP TABLE users"]] ["h"] true =
      [⟨"h", 2,
        "Contains potentially dangerous SQL pattern (Statement terminator): \"; DROP TABLE users\""⟩] := by
  constructor
  · intro headers line j cell f h
    rw [cellPatternFailure] at h
    split at h
    · exact absurd h (by simp)
    · cases hfind : SQL_DANGEROUS_PATTERNS.find? (fun pd => Rex.search pd.1 (jsTrim cell).data)
        with
      | none =>
        rw [hfind] at h
        exact absurd h (by simp)
      | some pd =>
        rw [hfind] at h
        dsimp only at h
        obtain ⟨k, hget, hpd, hbefore⟩ := find?_first _ _ _ hfind
        refine ⟨k, pd.1, pd.2, ?_, hpd, ?_, ?_⟩
        · rw [Prod.mk.eta]
          exact hget
        · intro k' rex' desc' hk' hget'
          exact hbefore k' (rex', desc') hk' hget'
        · injection h with h
          exact h.symm
  · decide

/-- C6 witness: applying the first-match theorem to the concrete cell
"; DROP TABLE users". -/
theorem C6_witness :
    ∃ k rex desc, SQL_DANGEROUS_PATTERNS.get? k = some (rex, desc) ∧
      Rex.search rex (jsTrim "; DROP TABLE users").data = true ∧
      (∀ k' rex' desc', k' < k → SQL_DANGEROUS_PATTERNS.get? k' = some (rex', desc') →
        Rex.search rex' (jsTrim "; DROP TABLE users").data = false) ∧
      (⟨"h", 2,
        "Contains potentially dangerous SQL pattern (Statement terminator): \"; DROP TABLE users\""⟩ :
          ValidationFailure) =
        ⟨columnLabel ["h"] 0, 2,
          "Contains potentially dangerous SQL pattern (" ++ desc ++ "): \"" ++
            preview50 (jsTrim "; DROP TABLE users") ++ "\""⟩ :=
  C6_pattern_catalog_first_match.1 ["h"] 2 0 "; DROP TABLE users" _ (by decide)

/-- C7: a non-empty (after trim) cell checked against a number column
passes exactly when, after stripping one layer of surrounding matching
quotes, it matches the specification's number grammar; "42", "-3.14",
".5", "-0." and the quoted form pass, "not-a-number" and "1.2.3" fail
with the value preview in the reason, truncated to 50 characters with an
ellipsis when longer. -/
theorem C7_number_grammar :
    (∀ (rawStr : String) (constraints : ColumnConstraints) (name : String) (line : Nat),
      constraints.type = some .number → jsTrim rawStr ≠ "" →
      (validateCellForSchema rawStr constraints name line = none ↔
        specNumberGrammar (stripSurroundingQuotes (jsTrim rawStr)).data)) ∧
    validateCellForSchema "42" ⟨some .number, none⟩ "c" 2 = none ∧
    validateCellForSchema "-3.14" ⟨some .number, none⟩ "c" 2 = none ∧
    validateCellForSchema ".5" ⟨some .number, none⟩ "c" 2 = none ∧
    validateCellForSchema "-0." ⟨some .number, none⟩ "c" 2 = none ∧
    validateCellForSchema "\"42\"" ⟨some .number, none⟩ "c" 2 = none ∧
    validateCellForSchema "not-a-number" ⟨some .number, none⟩ "c" 2 =
      some ⟨"c", 2, "Column \"c\" expects a number; got: \"not-a-number\""⟩ ∧
    validateCellForSchema "1.2.3" ⟨some .number, none⟩ "c" 2 =
      some ⟨"c", 2, "Column \"c\" expects a number; got: \"1.2.3\""⟩ ∧
    validateCellForSchema (⟨List.replicate 60 'x'⟩ : String) ⟨some .number, none⟩ "c" 2 =
      some ⟨"c", 2, "Column \"c\" expects a number; got: \"" ++
        (⟨List.replicate 50 'x'⟩ : String) ++ "...\""⟩ := by
  refine ⟨?_, by decide, by decide, by decide, by decide, by decide, by decide, by decide,
    by decide⟩
  intro rawStr constraints name line htype htrim
  rw [validateCellForSchema]
  rw [if_neg htrim, htype]
  dsimp only
  cases hm : Rex.rmatch NUMBER_PATTERN (stripSurroundingQuotes (jsTrim rawStr)).data with
  | true =>
    simp only [Bool.not_true, Bool.false_eq_true, if_false]
    exact ⟨fun _ => (rmatch_NUMBER_PATTERN_iff _).mp hm, fun _ => rfl⟩
  | false =>
    simp only [Bool.not_false, if_true]
    constructor
    · intro hcontra
      exact absurd hcontra (by simp)
    · intro hg
      have := (rmatch_NUMBER_PATTERN_iff _).mpr hg
      rw [this] at hm
      exact absurd hm (by simp)

/-- C7 witness: the grammar characterization applied to the value "42". -/
theorem C7_witness :
    validateCellForSchema "42" ⟨some .number, none⟩ "c" 2 = none ↔
      specNumberGrammar (stripSurroundingQuotes (jsTrim "42")).data :=
  C7_number_grammar.1 "42" ⟨some .number, none⟩ "c" 2 rfl (by decide)

/-- C8: whenever some expected header's normalized form is absent from the
normalized observed row, the Header Validator returns the single failure
(column "headers", line 1) whose reason lists all missing original
expected names, comma-joined, in expected order — for every configuration,
hence regardless of strictOrder, and before any count or positional
check. -/
theorem C8_missing_headers_precedence :
    ∀ (headers : List String) (config : HeaderConfig),
      (∃ e ∈ config.expectedHeaders,
        (headers.map (normalizeHeader (config.caseInsensitive.getD false))).contains
          (normalizeHeader (config.caseInsensitive.getD false) e) = false) →
      validateHeaders headers config = some ⟨"headers", 1,
        "Missing required headers: " ++ String.intercalate ", "
          (config.expectedHeaders.filter
            (fun e =>
              !(headers.map (normalizeHeader (config.caseInsensitive.getD false))).contains
                (normalizeHeader (config.caseInsensitive.getD false) e)))⟩ := by
  intro headers config hex
  have hmiss : missingHeaders headers config ≠ [] := by
    rw [missingHeaders_eq_filter]
    obtain ⟨e, he, hc⟩ := hex
    intro hnil
    have hall := List.filter_eq_nil_iff.mp hnil e he
    rw [hc] at hall
    exact hall rfl
  rw [validateHeaders]
  dsimp only
  rw [if_pos hmiss, missingHeaders_eq_filter]

/-- C8 witness: the header row ["Name"] against expected
["Name", "Age"] under strictOrder = true: the count also mismatches, yet
the missing-header failure is returned. -/
theorem C8_witness :
    validateHeaders ["Name"] ⟨["Name", "Age"], some true, none, none⟩ =
      some ⟨"headers", 1, "Missing required headers: " ++ String.intercalate ", "
        ((["Name", "Age"] : List String).filter
          (fun e =>
            !((["Name"] : List String).map (normalizeHeader false)).contains
              (normalizeHeader false e)))⟩ :=
  C8_missing_headers_precedence ["Name"] ⟨["Name", "Age"], some true, none, none⟩
    ⟨"Age", by decide, by decide⟩

/-- C9: the encoding table maps ASCII, UTF8 and UTF16 to the inclusive
range [0, 0x7F] and LATIN1 and WINDOWS1252 to [0, 0xFF]; a character is
valid exactly when its code lies inside at least one allowed encoding's
range (union semantics); an emitted cell failure names the first invalid
character, its 4-digit zero-padded hexadecimal code and the allowed
encodings, all earlier characters being valid; the cell "é" is flagged
under [UTF8] and passes under [LATIN1]. -/
theorem C9_encoding_union_semantics :
    (ENCODING_RANGES .ASCII = (0x00, 0x7F) ∧ ENCODING_RANGES .UTF8 = (0x00, 0x7F) ∧
      ENCODING_RANGES .UTF16 = (0x00, 0x7F) ∧ ENCODING_RANGES .LATIN1 = (0x00, 0xFF) ∧
      ENCODING_RANGES .WINDOWS1252 = (0x00, 0xFF)) ∧
    (∀ (allowed : List EncodingType) (c : Char),
      isValidSomewhere allowed c = true ↔
        ∃ e ∈ allowed, (ENCODING_RANGES e).1 ≤ c.toNat ∧ c.toNat ≤ (ENCODING_RANGES e).2) ∧
    (∀ (headers : List String) (allowed : List EncodingType) (line j : Nat)
      (cell : String) (f : ValidationFailure),
      cellEncodingFailure headers allowed line j cell = some f →
      ∃ k c, cell.data.get? k = some c ∧ isValidSomewhere allowed c = false ∧
        (∀ k' c', k' < k → cell.data.get? k' = some c' →
          isValidSomewhere allowed c' = true) ∧
        f = ⟨columnLabel headers j, line,
          "Contains character \"" ++ (⟨[c]⟩ : String) ++ "\" (" ++ hexCode c.toNat ++
            ") not allowed in specified encodings: " ++
            String.intercalate ", " (allowed.map EncodingType.name)⟩) ∧
    validateEncoding [["h"], ["é"]] ["h"] [.UTF8] =
      [⟨"h", 2, "Contains character \"é\" (0x00E9) not allowed in specified encodings: UTF8"⟩] ∧
    validateEncoding [["h"], ["é"]] ["h"] [.LATIN1] = [] := by
  refine ⟨by decide, ?_, ?_, by decide, by decide⟩
  · intro allowed c
    rw [isValidSomewhere, List.any_eq_true]
    constructor
    · rintro ⟨e, he, hv⟩
      simp only [isValidForEncoding, Bool.and_eq_true, decide_eq_true_eq] at hv
      exact ⟨e, he, hv⟩
    · rintro ⟨e, he, h1, h2⟩
      refine ⟨e, he, ?_⟩
      simp only [isValidForEncoding, Bool.and_eq_true, decide_eq_true_eq]
      exact ⟨h1, h2⟩
  · intro headers allowed line j cell f h
    rw [cellEncodingFailure] at h
    split at h
    · exact absurd h (by simp)
    · cases hfind : cell.data.find? (fun c => !isValidSomewhere allowed c) with
      | none =>
        rw [hfind] at h
        exact absurd h (by simp)
      | some c =>
        rw [hfind] at h
        dsimp only at h
        obtain ⟨k, hget, hc, hbefore⟩ := find?_first _ _ _ hfind
        refine ⟨k, c, hget, ?_, ?_, ?_⟩
        · have hc' : (!isValidSomewhere allowed c) = true := hc
          rwa [Bool.not_eq_true'] at hc'
        · intro k' c' hk' hget'
          have hb : (!isValidSomewhere allowed c') = false := hbefore k' c' hk' hget'
          rwa [Bool.not_eq_false'] at hb
        · injection h with h
          exact h.symm

/-- C9 witness: the first-invalid-character theorem applied to the cell
"é" under allowedEncodings = [UTF8]. -/
theorem C9_witness :
    ∃ k c, ("é" : String).data.get? k = some c ∧ isValidSomewhere [.UTF8] c = false ∧
      (∀ k' c', k' < k → ("é" : String).data.get? k' = some c' →
        isValidSomewhere [.UTF8] c' = true) ∧
      (⟨"h", 2, "Contains character \"é\" (0x00E9) not allowed in specified encodings: UTF8"⟩ :
          ValidationFailure) =
        ⟨columnLabel ["h"] 0, 2,
          "Contains character \"" ++ (⟨[c]⟩ : String) ++ "\" (" ++ hexCode c.toNat ++
            ") not allowed in specified encodings: " ++
            String.intercalate ", " (([.UTF8] : List EncodingType).map EncodingType.name)⟩ :=
  C9_encoding_union_semantics.2.2.1 ["h"] [.UTF8] 2 0 "é" _ (by decide)

/-- C10: the pattern, schema and encoding validators never examine row 0
(replacing the header row of the data by any other row leaves their
outputs unchanged), and a table whose header cell contains a SQL pattern,
a type-violating value and an out-of-range character, with clean data
rows, still validates successfully end-to-end. -/
theorem C10_header_row_not_examined :
    (∀ (r0 r0' : List String) (rest : List (List String)) (headers : List String)
      (flag : Bool) (config : HeaderConfig) (allowed : List EncodingType),
      validateDataRows (r0 :: rest) headers flag = validateDataRows (r0' :: rest) headers flag ∧
      validateColumnSchemas (r0 :: rest) headers config =
        validateColumnSchemas (r0' :: rest) headers config ∧
      validateEncoding (r0 :: rest) headers allowed =
        validateEncoding (r0' :: rest) headers allowed) ∧
    validateFile (.ok [["a;--é"], ["42"]])
      ⟨⟨["a;--é"], none, none, some [("a;--é", ⟨some .number, some false⟩)]⟩,
        some true, some ⟨some [.UTF8]⟩⟩ = .success "File validation passed successfully" := by
  constructor
  · intro r0 r0' rest headers flag config allowed
    refine ⟨?_, ?_, ?_⟩
    · cases flag <;> rfl
    · rfl
    · rfl
  · decide

end CsvEval
